import Mathlib

/-!
Verification development for the cpp-http-server repository.

The C++ sources are shallowly embedded: strings are `List Char`, byte
buffers are `List Nat` (each element kept below 256 where it matters),
`std::unordered_map<std::string, std::string>` is an association list with
insert-or-replace semantics, machine integers are `Nat` with explicit
`% 2 ^ w` / division where overflow or bit extraction matters, and
fallible code returns `Option`.
-/

set_option maxRecDepth 10000

/-- Boolean test that `pre` is a prefix of `l` (C++ `starts_with`). -/
def leadsWith {α : Type} [DecidableEq α] : List α → List α → Bool
  | [], _ => true
  | _ :: _, [] => false
  | a :: as, b :: bs => a = b && leadsWith as bs

/-- Model of `std::string::find(pat)`: index of the first occurrence of
`pat` as a contiguous substring, `none` standing for `npos`. -/
def findSub (pat : List Char) : List Char → Option Nat
  | [] => if leadsWith pat [] then some 0 else none
  | c :: t =>
    if leadsWith pat (c :: t) then some 0
    else (findSub pat t).map (fun i => i + 1)

/-- Model of `std::string::find(ch)`: index of the first occurrence of a
single character. -/
def findCharIdx (ch : Char) : List Char → Option Nat
  | [] => none
  | c :: cs => if c = ch then some 0 else (findCharIdx ch cs).map (fun i => i + 1)

/-- Space or horizontal tab, the characters trimmed by the C++ code
(`find_first_not_of(" \t")` / `find_last_not_of(" \t")`). -/
def isSpTab (c : Char) : Bool := c = ' ' || c = '\t'

/-- Left trim of SP and HTAB (`erase(0, find_first_not_of(" \t"))`). -/
def trimL (l : List Char) : List Char := l.dropWhile isSpTab

/-- Right trim of SP and HTAB (`erase(find_last_not_of(" \t") + 1)`). -/
def trimR (l : List Char) : List Char := (l.reverse.dropWhile isSpTab).reverse

/-- Trim of SP and HTAB on both sides. -/
def trimWs (l : List Char) : List Char := trimR (trimL l)

/-- ASCII lowercase of one character (C `tolower` in the "C" locale). -/
def asciiLower (c : Char) : Char :=
  if 'A' ≤ c && c ≤ 'Z' then Char.ofNat (c.toNat + 32) else c

/-- ASCII lowercase of a string. -/
def lowerStr (l : List Char) : List Char := l.map asciiLower

/-- Association-list model of `std::unordered_map<std::string, std::string>`;
iteration order is irrelevant to every claim treated here. -/
abbrev Smap : Type := List (List Char × List Char)

/-- Lookup in the map model (`find`). -/
def mapFind? (k : List Char) : Smap → Option (List Char)
  | [] => none
  | (k', v) :: m => if k' = k then some v else mapFind? k m

/-- Insert-or-replace in the map model (`operator[] =` assignment). -/
def mapInsert (k v : List Char) : Smap → Smap
  | [] => [(k, v)]
  | (k', v') :: m => if k' = k then (k', v) :: m else (k', v') :: mapInsert k v m

theorem mapFind?_insert_self (k v : List Char) (m : Smap) :
    mapFind? k (mapInsert k v m) = some v := by
  induction m with
  | nil => simp [mapInsert, mapFind?]
  | cons hd tl ih =>
    obtain ⟨k', v'⟩ := hd
    by_cases h : k' = k
    · simp [mapInsert, mapFind?, h]
    · simp [mapInsert, mapFind?, h, ih]

theorem mapFind?_insert_ne (k k' v : List Char) (m : Smap) (h : k' ≠ k) :
    mapFind? k (mapInsert k' v m) = mapFind? k m := by
  induction m with
  | nil => simp [mapInsert, mapFind?, h]
  | cons hd tl ih =>
    obtain ⟨k₀, v₀⟩ := hd
    by_cases h0 : k₀ = k'
    · subst h0
      simp [mapInsert, mapFind?, h]
    · by_cases h1 : k₀ = k
      · subst h1
        simp [mapInsert, mapFind?, h0, Ne.symm h]
      · simp [mapInsert, mapFind?, h0, h1, ih]

/-- Split a character list at every occurrence of `sep`; the result always
has at least one (possibly empty) component. -/
def splitOnCh (sep : Char) : List Char → List (List Char)
  | [] => [[]]
  | c :: cs =>
    let r := splitOnCh sep cs
    if c = sep then [] :: r
    else
      match r with
      | [] => [[c]]
      | h :: t => (c :: h) :: t

/-- Drop a trailing empty component. -/
def dropLastEmpty : List (List Char) → List (List Char)
  | [] => []
  | [x] => if x = [] then [] else [x]
  | x :: y :: t => x :: dropLastEmpty (y :: t)

/-- Model of the `while (std::getline(stream, tok, sep))` loop: the
components produced before the stream runs dry.  `getline` fails at once on
an exhausted stream, so exactly a trailing empty component is dropped. -/
def getlineSplit (sep : Char) (l : List Char) : List (List Char) :=
  dropLastEmpty (splitOnCh sep l)

/-- Decimal digit predicate. -/
def isDigitCh (c : Char) : Bool := '0' ≤ c && c ≤ '9'

/-- Value of a decimal digit string (left fold, most significant first). -/
def digitsToNat (l : List Char) : Nat :=
  l.foldl (fun a c => a * 10 + (c.toNat - 48)) 0

/-- Whitespace skipped by `strtoull` / `strtoul` (C `isspace`). -/
def isCppWs (c : Char) : Bool :=
  c = ' ' || c = '\t' || c = '\n' || c = '\x0b' || c = '\x0c' || c = '\r'

/-- Model of `std::stoull(s)` (base 10): optional whitespace, optional
sign, then decimal digits.  `none` models a thrown `invalid_argument` (no
digits) or `out_of_range` (value beyond `ULLONG_MAX`); a minus sign wraps
the value modulo `2 ^ 64` exactly as `strtoull` negates in the result
type. -/
def cppStoull (s : List Char) : Option Nat :=
  let s1 := s.dropWhile isCppWs
  let neg := s1.take 1 = ['-']
  let s2 := if s1.take 1 = ['-'] || s1.take 1 = ['+'] then s1.drop 1 else s1
  let ds := s2.takeWhile isDigitCh
  if ds = [] then none
  else
    let v := digitsToNat ds
    if 2 ^ 64 ≤ v then none
    else some (if neg then (2 ^ 64 - v) % 2 ^ 64 else v)

/-- Hexadecimal digit predicate (both cases). -/
def isHexDigitCh (c : Char) : Bool :=
  ('0' ≤ c && c ≤ '9') || ('a' ≤ c && c ≤ 'f') || ('A' ≤ c && c ≤ 'F')

/-- Value of one hexadecimal digit character. -/
def hexCharVal (c : Char) : Nat :=
  if '0' ≤ c && c ≤ '9' then c.toNat - 48
  else if 'a' ≤ c && c ≤ 'f' then c.toNat - 87
  else c.toNat - 55

/-- Value of a hexadecimal digit string (most significant first). -/
def hexDigitsToNat (l : List Char) : Nat :=
  l.foldl (fun a c => a * 16 + hexCharVal c) 0

/-- Model of `std::stoul(s, nullptr, 16)`: optional whitespace, optional
sign, optional `0x` prefix, then hex digits; `none` models a throw.  (When
a `0x` prefix is not followed by a hex digit the C library backs up and
parses the bare `0`; that corner is not modelled — no chunk-size line a
claim exercises carries a prefix.) -/
def cppStoulHex (s : List Char) : Option Nat :=
  let s1 := s.dropWhile isCppWs
  let neg := s1.take 1 = ['-']
  let s2 := if s1.take 1 = ['-'] || s1.take 1 = ['+'] then s1.drop 1 else s1
  let s3 := if s2.take 2 = ['0', 'x'] || s2.take 2 = ['0', 'X'] then s2.drop 2 else s2
  let ds := s3.takeWhile isHexDigitCh
  if ds = [] then none
  else
    let v := hexDigitsToNat ds
    if 2 ^ 64 ≤ v then none
    else some (if neg then (2 ^ 64 - v) % 2 ^ 64 else v)

/-! ## HTTP request model (src/request.cpp) -/

/-- The `HttpMethod` enumeration of request.hpp. -/
inductive HttpMethod : Type
  | GET | POST | PUT | DELETE | HEAD | OPTIONS | PATCH | UNKNOWN
deriving DecidableEq, Repr

/-- `HttpRequest::string_to_method`. -/
def string_to_method (s : List Char) : HttpMethod :=
  if s = "GET".toList then .GET
  else if s = "POST".toList then .POST
  else if s = "PUT".toList then .PUT
  else if s = "DELETE".toList then .DELETE
  else if s = "HEAD".toList then .HEAD
  else if s = "OPTIONS".toList then .OPTIONS
  else if s = "PATCH".toList then .PATCH
  else .UNKNOWN

/-- The parsed-request record of request.hpp (the fields the claims use). -/
structure HttpRequest : Type where
  method : HttpMethod
  path : List Char
  version : List Char
  headers : Smap
  query_params : Smap
  body : List Char
deriving DecidableEq, Repr

/-- A default-constructed `HttpRequest` (fields before any parsing). -/
def HttpRequest.empty : HttpRequest :=
  ⟨.UNKNOWN, [], [], [], [], []⟩

/-- `HttpRequest::is_valid_header_name`: RFC 7230 token grammar. -/
def is_valid_header_name (name : List Char) : Bool :=
  name ≠ [] && name.all fun c =>
    ('A' ≤ c && c ≤ 'Z') || ('a' ≤ c && c ≤ 'z') ||
    ('0' ≤ c && c ≤ '9') ||
    c = '!' || c = '#' || c = '$' || c = '%' || c = '&' ||
    c = '\'' || c = '*' || c = '+' || c = '-' || c = '.' ||
    c = '^' || c = '_' || c = '`' || c = '|' || c = '~'

/-- `HttpRequest::is_valid_header_value`: visible ASCII, SP, HTAB, or the
obs-text range `0x80`-`0xFF` (each `Char` stands for one byte). -/
def is_valid_header_value (value : List Char) : Bool :=
  value.all fun c =>
    (0x21 ≤ c.toNat && c.toNat ≤ 0x7E) || c.toNat = 0x20 || c.toNat = 0x09 ||
    (0x80 ≤ c.toNat && c.toNat ≤ 0xFF)

/-- `HttpRequest::parse_header_line`: split at the first `:`, right-trim
the name, trim the value, validate both, then lowercase the name and
ASSIGN into the map (a duplicate name overwrites the earlier value). -/
def parse_header_line (hdrs : Smap) (line : List Char) : Smap :=
  match findCharIdx ':' line with
  | none => hdrs
  | some colon =>
    let name := trimR (line.take colon)
    let value := trimWs (line.drop (colon + 1))
    if is_valid_header_name name then
      if is_valid_header_value value then
        mapInsert (lowerStr name) value hdrs
      else hdrs
    else hdrs

/-- One step of `HttpRequest::parse_query_string`: split a `&`-component at
its first `=` (or take the whole component as key with empty value). -/
def query_pair_step (m : Smap) (pair : List Char) : Smap :=
  match findCharIdx '=' pair with
  | some eq => mapInsert (pair.take eq) (pair.drop (eq + 1)) m
  | none => mapInsert pair [] m

/-- `HttpRequest::parse_query_string`: `getline` on `&`, then split each
pair at its first `=`. -/
def parse_query_string (query : List Char) : Smap :=
  (getlineSplit '&' query).foldl query_pair_step []

/-- The key a query component binds (for stating which later components
shadow an earlier one). -/
def queryKeyOf (pair : List Char) : List Char :=
  match findCharIdx '=' pair with
  | some eq => pair.take eq
  | none => pair

/-- Tokens as consumed by chained `operator>>` on an `istringstream`,
fuelled so the recursion is structural and kernel-reducible: whitespace is
skipped, then a maximal non-whitespace run is one token.  Each step
strictly shrinks the list, so any fuel above the list length is never
exhausted. -/
def wsTokensAux : Nat → List Char → List (List Char)
  | 0, _ => []
  | fuel + 1, l =>
    match l.dropWhile isCppWs with
    | [] => []
    | c :: cs =>
      ((c :: cs).takeWhile fun x => !isCppWs x) ::
        wsTokensAux fuel (cs.dropWhile fun x => !isCppWs x)

/-- Tokens of chained `operator>>` on an `istringstream`. -/
def wsTokens (l : List Char) : List (List Char) :=
  wsTokensAux (l.length + 1) l

/-- `HttpRequest::parse_request_line`: extract three whitespace-separated
tokens; with fewer than three the fields stay at their defaults.  The
target is split at its first `?` into path and query string. -/
def parse_request_line (req : HttpRequest) (line : List Char) : HttpRequest :=
  match wsTokens line with
  | m :: pq :: v :: _ =>
    let req := { req with method := string_to_method m, version := v }
    match findCharIdx '?' pq with
    | some q =>
      { req with
        path := pq.take q,
        query_params := parse_query_string (pq.drop (q + 1)) }
    | none => { req with path := pq }
  | _ => req

/-- CRLF as a character list. -/
def crlf : List Char := ['\r', '\n']

/-- `size_hex.substr(0, find(';'))`: drop a chunk extension. -/
def stripChunkExt (l : List Char) : List Char :=
  match findCharIdx ';' l with
  | some i => l.take i
  | none => l

/-- The 10 MiB body cap of request.cpp. -/
def MAX_BODY_SIZE : Nat := 10 * 1024 * 1024

/-- The loop of `HttpRequest::parse_chunked_body`, recursing on the
unconsumed part of the body view and fuelled so the recursion is
structural and kernel-reducible; every iteration consumes at least the
size line, so any fuel above the buffer length is never exhausted.
`none` models `return false`; leaving the loop (empty buffer or a
zero-size chunk) yields the accumulated body. -/
def parse_chunked_loop : Nat → List Char → List Char → Nat → Option (List Char)
  | 0, _, _, _ => none
  | fuel + 1, buf, acc, total =>
    if buf = [] then some acc
    else match findSub crlf buf with
    | none => none
    | some lineEnd =>
      match cppStoulHex (stripChunkExt (buf.take lineEnd)) with
      | none => none
      | some chunkSize =>
        let rest := buf.drop (lineEnd + 2)
        if chunkSize = 0 then some acc
        else if MAX_BODY_SIZE < total + chunkSize then none
        else if rest.length < chunkSize then none
        else
          let rest2 := rest.drop chunkSize
          if rest2.take 2 = crlf then
            parse_chunked_loop fuel (rest2.drop 2) (acc ++ rest.take chunkSize)
              (total + chunkSize)
          else none

/-- `HttpRequest::parse_chunked_body`. -/
def parse_chunked_body (bodyView : List Char) : Option (List Char) :=
  parse_chunked_loop (bodyView.length + 1) bodyView [] 0

/-- Search for the header terminator exactly as both `HttpRequest::parse`
and `Connection::is_request_complete` do: first `\r\n\r\n`, then `\n\n` as
a fallback.  The Boolean records which terminator was found, which fixes
the body offset (`+ 4` or `+ 2`). -/
def findHeaderEnd (raw : List Char) : Option (Nat × Bool) :=
  match findSub ("\r\n\r\n".toList) raw with
  | some p => some (p, true)
  | none =>
    match findSub ("\n\n".toList) raw with
    | some p => some (p, false)
    | none => none

/-- Header lines handed to `std::getline(header_stream, line)`: split the
pre-terminator text on `\n` and pop a trailing `\r` from each line. -/
def headerLines (headerStr : List Char) : List (List Char) :=
  (getlineSplit '\n' headerStr).map fun line =>
    if line ≠ [] && line.getLast! = '\r' then line.dropLast else line

/-- Fold of the header-parsing loop; empty lines are skipped. -/
def foldHeaderLines (hdrs : Smap) (lines : List (List Char)) : Smap :=
  lines.foldl (fun m line => if line = [] then m else parse_header_line m line) hdrs

/-- `HttpRequest::get_header` (lookup under the lowercased name). -/
def get_header (req : HttpRequest) (name : List Char) : Option (List Char) :=
  mapFind? (lowerStr name) req.headers

/-- `HttpRequest::content_length`: `stoull` of the `content-length` header,
with any exception turned into 0, and 0 when the header is absent. -/
def content_length (req : HttpRequest) : Nat :=
  match get_header req ("content-length".toList) with
  | some v => (cppStoull v).getD 0
  | none => 0

/-- Whether `transfer-encoding` is present and contains "chunked". -/
def teChunked (req : HttpRequest) : Bool :=
  match get_header req ("transfer-encoding".toList) with
  | some v => (findSub ("chunked".toList) v).isSome
  | none => false

/-- `HttpRequest::is_valid_http_version`. -/
def is_valid_http_version (v : List Char) : Bool :=
  v = "HTTP/1.0".toList || v = "HTTP/1.1".toList

/-- The `is_valid_` computation at the end of `HttpRequest::parse`. -/
def requestValid (req : HttpRequest) : Bool :=
  req.method ≠ HttpMethod.UNKNOWN && req.path ≠ [] &&
    is_valid_http_version req.version

/-- The request after the request line and the header loop, before any
body framing (the body field still holds its default). -/
def parseBase (reqLine : List Char) (rest : List (List Char)) : HttpRequest :=
  { parse_request_line HttpRequest.empty reqLine with
    headers := foldHeaderLines [] rest }

/-- The body-framing stage of `HttpRequest::parse`: chunked when
`transfer-encoding` contains "chunked", else by `Content-Length` (with
the completeness and 10 MiB guards), else no body consumed. -/
def frameBody (base : HttpRequest) (bodyView : List Char) : Option HttpRequest :=
  if teChunked base then
    match parse_chunked_body bodyView with
    | none => none
    | some b => some { base with body := b }
  else
    if 0 < content_length base then
      if bodyView.length < content_length base then none
      else if MAX_BODY_SIZE < content_length base then none
      else some { base with body := bodyView.take (content_length base) }
    else some base

/-- `HttpRequest::parse`: locate the header terminator, parse the request
line and the header lines, then frame the body, and finally require the
validity predicate.  `none` models `std::nullopt`. -/
def HttpRequest.parse (raw : List Char) : Option HttpRequest :=
  if raw = [] then none
  else
    match findHeaderEnd raw with
    | none => none
    | some (hEnd, crlf4) =>
      match headerLines (raw.take hEnd) with
      | [] => none
      | reqLine :: rest =>
        match frameBody (parseBase reqLine rest)
            (raw.drop (hEnd + (if crlf4 then 4 else 2))) with
        | none => none
        | some req => if requestValid req then some req else none

/-- `HttpRequest::is_keep_alive`: an explicit lowercase-compared
`Connection: keep-alive`, else the HTTP/1.1 default. -/
def is_keep_alive (req : HttpRequest) : Bool :=
  match get_header req ("connection".toList) with
  | some v => lowerStr v = "keep-alive".toList
  | none => req.version = "HTTP/1.1".toList

/-! ## Connection model (connection.cpp) -/

/-- `Connection::is_request_complete`: find the header terminator, parse
`request_data_.substr(0, header_end_pos)` — the buffer CUT BEFORE the
terminator — as a temporary request, then test chunked termination or
`Content-Length` coverage. -/
def is_request_complete (data : List Char) : Bool :=
  match findHeaderEnd data with
  | none => false
  | some (hEnd, crlf4) =>
    match HttpRequest.parse (data.take hEnd) with
    | none => false
    | some temp =>
      if teChunked temp then
        (findSub ("\r\n0\r\n\r\n".toList) data).isSome ||
          (findSub ("\n0\r\n\r\n".toList) data).isSome
      else
        let bodyStart := hEnd + (if crlf4 then 4 else 2)
        content_length temp ≤ data.length - bodyStart

/-- The buffer handling of `Connection::handle_write` after a response is
written: re-parse `request_data_`; on a keep-alive request the buffer is
CLEARED (every byte in it is discarded) and reading resumes; otherwise the
socket is closed (`none`). -/
def handleWriteNext (request_data : List Char) : Option (List Char) :=
  match HttpRequest.parse request_data with
  | some req => if is_keep_alive req then some [] else none
  | none => none

/-! ## ETag matching (src/response.cpp, `HttpResponse::etag_matches`) -/

/-- Strip a leading `W/` (`substr(0, 2) == "W/"`). -/
def stripWeak (s : List Char) : List Char :=
  if s.take 2 = "W/".toList then s.drop 2 else s

/-- `HttpResponse::etag_matches`: `*` matches anything; otherwise the
header splits on `,` via `getline`, every candidate is trimmed of SP/HTAB,
and it matches on raw equality or on equality after stripping a leading
`W/` from both the candidate and the stored ETag.  No quote handling
occurs anywhere. -/
def etag_matches (etag ifNoneMatch : List Char) : Bool :=
  if ifNoneMatch = "*".toList then true
  else
    (getlineSplit ',' ifNoneMatch).any fun token =>
      let t := trimWs token
      t = etag || stripWeak t = stripWeak etag

/-- Modelled from the spec: quote-stripping of an ETag candidate, needed
only to state the spec's version of the comparison ("equality is
string-equal after quote-stripping"), which the code does not implement. -/
def stripQuotes (s : List Char) : List Char :=
  match s with
  | '"' :: rest =>
    if rest ≠ [] && rest.getLast! = '"' then rest.dropLast else s
  | _ => s

/-- Modelled from the spec: the ETag comparison as the spec describes it —
split on `,`, trim, strip `W/` on both sides, then compare after
quote-stripping on both sides. -/
def etagMatchesSpec (etag ifNoneMatch : List Char) : Bool :=
  if ifNoneMatch = "*".toList then true
  else
    (getlineSplit ',' ifNoneMatch).any fun token =>
      let t := trimWs token
      stripQuotes (stripWeak t) = stripQuotes (stripWeak etag)

/-! ## HTTP response model (src/response.cpp, the parts the claims use) -/

/-- `HttpResponse::normalize_header_name`: dash-title casing — uppercase
after the start and after each `-`, lowercase elsewhere. -/
def respNormalizeLoop (capNext : Bool) : List Char → List Char
  | [] => []
  | c :: cs =>
    if c = '-' then c :: respNormalizeLoop true cs
    else if capNext then c.toUpper :: respNormalizeLoop false cs
    else c.toLower :: respNormalizeLoop false cs

/-- Dash-title normalization of a response-header name. -/
def respNormalize (name : List Char) : List Char := respNormalizeLoop true name

/-- The response record (the fields the claims use; `body_stream_`, the
`Date` header and serialization are outside every claim here). -/
structure HttpResponse : Type where
  status : Nat
  headers : Smap
  body : List Char
deriving DecidableEq, Repr

/-- `HttpResponse::set_header` (insert-or-replace under the normalized
name). -/
def resp_set_header (r : HttpResponse) (name value : List Char) : HttpResponse :=
  { r with headers := mapInsert (respNormalize name) value r.headers }

/-- `HttpResponse::get_header` (empty string when absent). -/
def resp_get_header (r : HttpResponse) (name : List Char) : List Char :=
  (mapFind? (respNormalize name) r.headers).getD []

/-- `HttpResponse::set_status`. -/
def resp_set_status (r : HttpResponse) (s : Nat) : HttpResponse :=
  { r with status := s }

/-- Decimal rendering of a `Nat` (`std::to_string`). -/
def natToStr (n : Nat) : List Char := (toString n).toList

/-- `HttpResponse::set_body`: store the body and refresh
`Content-Length`. -/
def resp_set_body (r : HttpResponse) (b : List Char) : HttpResponse :=
  resp_set_header { r with body := b } ("Content-Length".toList) (natToStr b.length)

/-- `HttpResponse::set_json`: JSON content type, then body. -/
def resp_set_json (r : HttpResponse) (b : List Char) : HttpResponse :=
  resp_set_body
    (resp_set_header r ("Content-Type".toList)
      ("application/json; charset=utf-8".toList)) b

/-! ## Rate limiter model (src/rate_limiter.cpp) -/

/-- The `RateLimitResult` struct. -/
structure RateLimitResult : Type where
  allowed : Bool
  remaining : Nat
  reset_time : Nat
  limit_type : List Char
  reason : List Char
deriving DecidableEq, Repr

/-- Per-key `TokenBucketLimiter::BucketState`; time points are whole
seconds on the steady clock (the code only ever compares and subtracts
them after a `duration_cast` to seconds). -/
structure BucketState : Type where
  tokens : Nat
  last_refill : Nat
deriving DecidableEq, Repr

/-- The parameters of a `TokenBucketLimiter`. -/
structure TBConfig : Type where
  capacity : Nat
  refill_rate : Nat
  refill_interval : Nat
deriving DecidableEq, Repr

/-- `TokenBucketLimiter::check_rate_limit` for one key: the absent-key
case creates `BucketState(capacity)` stamped `now`; then full elapsed
intervals refill `intervals * refill_rate` tokens capped at `capacity`
and advance `last_refill`; finally a token is consumed if available,
else the call is denied with `reset_time = interval - elapsed % interval`. -/
def check_rate_limit (cfg : TBConfig) (st? : Option BucketState) (now : Nat) :
    RateLimitResult × BucketState :=
  let st := st?.getD ⟨cfg.capacity, now⟩
  let elapsed := now - st.last_refill
  let st1 :=
    if cfg.refill_interval ≤ elapsed then
      { tokens :=
          min cfg.capacity
            (st.tokens + elapsed / cfg.refill_interval * cfg.refill_rate),
        last_refill := now }
    else st
  if 0 < st1.tokens then
    (⟨true, st1.tokens - 1, 0, "token_bucket".toList, []⟩,
     { st1 with tokens := st1.tokens - 1 })
  else
    (⟨false, 0, cfg.refill_interval - elapsed % cfg.refill_interval,
      "token_bucket".toList, "Token bucket exhausted".toList⟩, st1)

/-- The per-key state trajectory of a fresh key under a sequence of call
times: the state after each successive `check_rate_limit`. -/
def tbStates (cfg : TBConfig) : Option BucketState → List Nat → List BucketState
  | _, [] => []
  | st?, now :: rest =>
    let st' := (check_rate_limit cfg st? now).2
    st' :: tbStates cfg (some st') rest

/-- The middleware closure built by `RateLimiter::create_middleware`,
factored over the outcome of `check_request` (the stateful check is
modelled by `check_rate_limit` above).  `rateLimitResponse` is the
optional configured custom response; the returned `Bool` is the
continue/stop signal. -/
def create_middleware (max_requests : Nat)
    (rateLimitResponse : Option HttpResponse) (result : RateLimitResult)
    (response : HttpResponse) : Bool × HttpResponse :=
  if !result.allowed then
    let r1 := resp_set_header response ("X-RateLimit-Limit".toList) (natToStr max_requests)
    let r2 := resp_set_header r1 ("X-RateLimit-Remaining".toList) (natToStr result.remaining)
    let r3 := resp_set_header r2 ("X-RateLimit-Reset".toList) (natToStr result.reset_time)
    let r4 := resp_set_header r3 ("X-RateLimit-Type".toList) result.limit_type
    match rateLimitResponse with
    | some custom => (false, custom)
    | none =>
      (false,
       resp_set_json (resp_set_status r4 429)
         (("\x7b\"error\": \"Rate limit exceeded\", \"reason\": \"".toList) ++
           result.reason ++ ("\"\x7d".toList)))
  else
    let r1 := resp_set_header response ("X-RateLimit-Limit".toList) (natToStr max_requests)
    let r2 := resp_set_header r1 ("X-RateLimit-Remaining".toList) (natToStr result.remaining)
    (true, r2)

/-! ## Static file service (server.cpp, `HttpServer::handle_static_file`)

The filesystem is modelled as finite sets of directory paths and
regular-file paths given as absolute component lists, with no symbolic
links, so that `std::filesystem::canonical` of an existing directory and
`std::filesystem::weakly_canonical` both coincide with lexical
normalization, and `exists` / `is_directory` / `is_regular_file` consult
the normalized path. -/

/-- A path: whether it is absolute, and its components. -/
structure FsPath : Type where
  absolute : Bool
  comps : List (List Char)
deriving DecidableEq, Repr

/-- Parse a path string into components (consecutive separators collapse,
as they do for `std::filesystem::path` comparisons by string). -/
def parsePath (s : List Char) : FsPath :=
  ⟨decide (s.take 1 = ['/']), (splitOnCh '/' s).filter (fun c => c ≠ [])⟩

/-- `std::filesystem::path::operator/`: an absolute right-hand side
replaces the left-hand side entirely. -/
def pathAppend (a b : FsPath) : FsPath :=
  if b.absolute then b else ⟨a.absolute, a.comps ++ b.comps⟩

/-- Lexical normalization of an absolute component list: `.` vanishes and
`..` pops (at the root it vanishes, as in `weakly_canonical`). -/
def normalizeComps (cs : List (List Char)) : List (List Char) :=
  cs.foldl
    (fun acc c =>
      if c = ".".toList then acc
      else if c = "..".toList then acc.dropLast
      else acc ++ [c]) []

/-- Render an absolute component list the way
`std::filesystem::path::string()` does (no trailing separator). -/
def renderPath (cs : List (List Char)) : List Char :=
  '/' :: List.intercalate ("/".toList) cs

/-- The filesystem model: sets of directories and regular files. -/
structure FsModel : Type where
  dirs : List (List (List Char))
  files : List (List (List Char))
deriving DecidableEq, Repr

/-- `std::filesystem::is_directory` in the model. -/
def fsIsDir (fs : FsModel) (p : FsPath) : Bool :=
  normalizeComps p.comps ∈ fs.dirs

/-- `exists && is_regular_file` in the model. -/
def fsIsRegular (fs : FsModel) (p : FsPath) : Bool :=
  normalizeComps p.comps ∈ fs.files

/-- Outcome of the static-file service: which file's bytes are returned,
or which error response is produced. -/
inductive StaticResult : Type where
  | served (file : List (List Char))
  | forbidden
  | notFound
deriving DecidableEq, Repr

/-- The index-file loop of `handle_static_file`. -/
def firstIndexFile (fs : FsModel) (dir : FsPath) :
    List (List Char) → Option (List (List Char))
  | [] => none
  | idx :: rest =>
    let candidate := pathAppend dir ⟨false, [idx]⟩
    if fsIsRegular fs candidate then some (normalizeComps candidate.comps)
    else firstIndexFile fs dir rest

/-- `HttpServer::handle_static_file`: join the document root with
`request.path().substr(1)`, compare the canonical root against the
weakly-canonical requested path BY STRING PREFIX (`starts_with` on the
rendered strings), then serve a directory index, a regular file, or an
error. -/
def handle_static_file (fs : FsModel) (document_root : List Char)
    (index_files : List (List Char)) (reqPath : List Char) : StaticResult :=
  let requested := pathAppend (parsePath document_root) (parsePath (reqPath.drop 1))
  let canonicalRoot := normalizeComps (parsePath document_root).comps
  let canonicalReq := normalizeComps requested.comps
  if !leadsWith (renderPath canonicalRoot) (renderPath canonicalReq) then
    .forbidden
  else if fsIsDir fs requested then
    match firstIndexFile fs requested index_files with
    | some file => .served file
    | none => .forbidden
  else if fsIsRegular fs requested then .served canonicalReq
  else .notFound

/-- Containment in the claim's sense: the canonical root is a PATH prefix
(component-wise) of the file's canonical path. -/
def insideRoot (root file : List (List Char)) : Bool :=
  leadsWith root file

/-! ## WebSocket frame codec (src/websocket.cpp)

Bytes are `Nat` values; wire buffers produced by `serialize` hold values
below 256 because every entry is either a masked small constant, a
`/ ... % 256` extraction, or an XOR of a byte with a key byte.  Machine
shifts and masks of the C++ (`x >> k & 0xFF`) are written as
`x / 2 ^ k % 256`, which is the same function on `Nat`. -/

/-- The frame record of websocket.hpp; a default-constructed frame has
`masking_key = 0`. -/
structure WebSocketFrame : Type where
  fin : Bool
  rsv1 : Bool
  rsv2 : Bool
  rsv3 : Bool
  opcode : Nat
  masked : Bool
  payload_length : Nat
  masking_key : Nat
  payload : List Nat
deriving DecidableEq, Repr

/-- Key byte applied to payload index `i`:
`(masking_key >> ((3 - (i % 4)) * 8)) & 0xFF`. -/
def wsKeyByte (key i : Nat) : Nat := key / 2 ^ ((3 - i % 4) * 8) % 256

/-- XOR-mask a payload starting at index `i` (the C++ masking loop). -/
def wsMaskFrom (key i : Nat) : List Nat → List Nat
  | [] => []
  | b :: bs => (b ^^^ wsKeyByte key i) :: wsMaskFrom key (i + 1) bs

/-- XOR-mask a whole payload. -/
def wsMask (key : Nat) (p : List Nat) : List Nat := wsMaskFrom key 0 p

/-- First serialized byte: opcode ORed with the FIN and RSV bits, in the
order the C++ applies `|=`. -/
def wsByte0 (opcode : Nat) (fin rsv1 rsv2 rsv3 : Bool) : Nat :=
  (((opcode ||| (if fin then 128 else 0)) ||| (if rsv1 then 64 else 0)) |||
    (if rsv2 then 32 else 0)) ||| (if rsv3 then 16 else 0)

/-- Second serialized byte: the MASK bit ORed over a 7-bit field. -/
def wsMaskBitOr (masked : Bool) (x : Nat) : Nat :=
  (if masked then 128 else 0) ||| x

/-- `WebSocketFrame::serialize`.  The first byte ORs the opcode with the
FIN/RSV bits; the second byte ORs the MASK bit with the 7-bit length
field; big-endian extended lengths and the masking key are emitted with
`/ 2 ^ k % 256` for the C++ `>> k & 0xFF`. -/
def wsSerialize (f : WebSocketFrame) : List Nat :=
  let b0 := wsByte0 f.opcode f.fin f.rsv1 f.rsv2 f.rsv3
  let lenBytes : List Nat :=
    if f.payload_length < 126 then [wsMaskBitOr f.masked f.payload_length]
    else if f.payload_length < 65536 then
      [wsMaskBitOr f.masked 126,
       f.payload_length / 2 ^ 8 % 256, f.payload_length % 256]
    else
      [wsMaskBitOr f.masked 127,
       f.payload_length / 2 ^ 56 % 256, f.payload_length / 2 ^ 48 % 256,
       f.payload_length / 2 ^ 40 % 256, f.payload_length / 2 ^ 32 % 256,
       f.payload_length / 2 ^ 24 % 256, f.payload_length / 2 ^ 16 % 256,
       f.payload_length / 2 ^ 8 % 256, f.payload_length % 256]
  let keyBytes : List Nat :=
    if f.masked then
      [f.masking_key / 2 ^ 24 % 256, f.masking_key / 2 ^ 16 % 256,
       f.masking_key / 2 ^ 8 % 256, f.masking_key % 256]
    else []
  let payloadBytes := if f.masked then wsMask f.masking_key f.payload else f.payload
  b0 :: lenBytes ++ keyBytes ++ payloadBytes

/-- `WebSocketFrame::parse`: `none` models a thrown "insufficient data"
error; on success the parsed frame and `bytes_consumed` are returned.
Big-endian recombinations `(hi << 8) | lo` on bytes are written
`hi * 256 + lo`, the same value because the shifted accumulator has zero
low bits. -/
def wsParse (data : List Nat) : Option (WebSocketFrame × Nat) :=
  match data with
  | b0 :: b1 :: rest =>
    let fin := b0 &&& 128 ≠ 0
    let rsv1 := b0 &&& 64 ≠ 0
    let rsv2 := b0 &&& 32 ≠ 0
    let rsv3 := b0 &&& 16 ≠ 0
    let opcode := b0 &&& 15
    let masked := b1 &&& 128 ≠ 0
    let len7 := b1 &&& 127
    let extSize : Nat := if len7 = 126 then 2 else if len7 = 127 then 8 else 0
    if rest.length < extSize then none
    else
      let payloadLen :=
        if len7 = 126 then (rest.take 2).foldl (fun a b => a * 256 + b) 0
        else if len7 = 127 then (rest.take 8).foldl (fun a b => a * 256 + b) 0
        else len7
      let rest2 := rest.drop extSize
      if masked then
        if rest2.length < 4 then none
        else
          let key := (rest2.take 4).foldl (fun a b => a * 256 + b) 0
          let rest3 := rest2.drop 4
          if rest3.length < payloadLen then none
          else
            some (⟨decide fin, decide rsv1, decide rsv2, decide rsv3, opcode,
                   true, payloadLen, key, wsMask key (rest3.take payloadLen)⟩,
                  2 + extSize + 4 + payloadLen)
      else
        if rest2.length < payloadLen then none
        else
          some (⟨decide fin, decide rsv1, decide rsv2, decide rsv3, opcode,
                 false, payloadLen, 0, rest2.take payloadLen⟩,
                2 + extSize + payloadLen)
  | _ => none

/-! ## Concrete instances used by the claim theorems -/

/-- A filesystem with the document root `/var/www`, a sibling directory
`/var/www2` whose name shares the root's string prefix, and a file in
each. -/
def fsExample : FsModel :=
  ⟨[["var".toList], ["var".toList, "www".toList], ["var".toList, "www2".toList]],
   [["var".toList, "www2".toList, "secret.txt".toList],
    ["var".toList, "www".toList, "index.html".toList]]⟩

/-- The file outside the root that `fsExample` exposes. -/
def secretFile : List (List Char) :=
  ["var".toList, "www2".toList, "secret.txt".toList]

/-- A complete, valid GET request with an empty body. -/
def simpleGet : List Char := "GET /hello HTTP/1.1\r\nHost: x\r\n\r\n".toList

/-- A request carrying the same header name twice. -/
def dupHeaderReq : List Char :=
  "GET / HTTP/1.1\r\nX-A: 1\r\nX-A: 2\r\n\r\n".toList

/-- A complete keep-alive chunked request followed by three extra bytes
(`XYZ`) that sit in the connection buffer after the chunked terminator. -/
def chunkedPlusRest : List Char :=
  "POST /u HTTP/1.1\r\nTransfer-Encoding: chunked\r\n\r\n5\r\nHello\r\n0\r\n\r\nXYZ".toList

/-- Claim C1: the static-file service is claimed to serve only files
inside the document root and answer 403/404 otherwise.  The code compares
rendered path strings with `starts_with`, so the request
`/../www2/secret.txt` against root `/var/www` serves
`/var/www2/secret.txt`, a file that does NOT have the canonical root as a
path prefix: containment is violated. -/
theorem c1_static_file_escapes_root :
    handle_static_file fsExample ("/var/www".toList) [] ("/../www2/secret.txt".toList)
      = StaticResult.served secretFile ∧
    insideRoot (normalizeComps (parsePath ("/var/www".toList)).comps) secretFile
      = false := by
  constructor
  · decide
  · decide

/-- Claim C2: `is_request_complete` is claimed to hold exactly when the
header terminator is present and the body framing is satisfied.  The code
parses `request_data_.substr(0, header_end_pos)` — the buffer cut BEFORE
the terminator — and `HttpRequest::parse` rejects any input without a
terminator, so the predicate is `false` even on a complete, parseable
request with `Content-Length` absent. -/
theorem c2_is_request_complete_always_false_on_simple_get :
    is_request_complete simpleGet = false ∧
    (HttpRequest.parse simpleGet).isSome = true := by
  constructor
  · decide
  · decide

/-- Claim C3 counterexample: two `X-A` headers with values `1` and `2`
are claimed to combine into `1, 2`; the parse map instead binds `x-a` to
`2` alone — assignment overwrites the earlier value. -/
theorem c3_duplicate_headers_not_combined :
    ((HttpRequest.parse dupHeaderReq).bind fun r =>
        mapFind? ("x-a".toList) r.headers) = some ("2".toList) ∧
    ("2".toList : List Char) ≠ "1, 2".toList := by
  constructor
  · decide
  · decide

/-- Claim C4 counterexample: matching is claimed to be insensitive to
surrounding double quotes; the code never strips quotes, so the stored
ETag `"X"` (with quotes) does not match the candidate `X` (without),
while the spec's quote-stripping comparison says it should. -/
theorem c4_quotes_are_significant :
    etag_matches ("\"X\"".toList) ("X".toList) = false ∧
    etagMatchesSpec ("\"X\"".toList) ("X".toList) = true := by
  constructor
  · decide
  · decide

/-- Claim C5 counterexample: bytes after the chunked terminator are
claimed to be preserved in the connection buffer as the start of the next
request; `Connection::handle_write` instead CLEARS the buffer on
keep-alive, so the trailing `XYZ` is discarded. -/
theorem c5_leftover_bytes_discarded :
    (HttpRequest.parse chunkedPlusRest).isSome = true ∧
    handleWriteNext chunkedPlusRest = some [] ∧
    ("XYZ".toList : List Char) ≠ [] := by
  refine ⟨?_, ?_, ?_⟩
  · decide
  · decide
  · decide

/-- Pointwise absorption: raw equality of a candidate with the ETag is
subsumed by equality after `W/` stripping of both sides. -/
theorem etag_candidate_absorb (etag t : List Char) :
    (decide (t = etag) || decide (stripWeak t = stripWeak etag)) =
      decide (stripWeak t = stripWeak etag) := by
  by_cases h : t = etag
  · subst h
    simp
  · simp [h]

/-- Absorption over a whole candidate list. -/
theorem etag_any_absorb (etag : List Char) (l : List (List Char)) :
    (l.any fun token =>
        decide (trimWs token = etag) ||
          decide (stripWeak (trimWs token) = stripWeak etag)) =
      l.any fun token => decide (stripWeak (trimWs token) = stripWeak etag) := by
  induction l with
  | nil => rfl
  | cons hd tl ih => simp only [List.any_cons, ih, etag_candidate_absorb]

/-- Claim C4 (amended): `etag_matches` is `*`-wildcarding plus, per
comma-separated candidate, exact string equality after trimming and after
stripping a leading `W/` from both sides — with no quote handling — and
the three strong/weak symmetry instances hold. -/
theorem c4_etag_matching_amended :
    (∀ etag inm : List Char,
      etag_matches etag inm =
        (inm = "*".toList ||
          (getlineSplit ',' inm).any fun token =>
            stripWeak (trimWs token) = stripWeak etag)) ∧
    etag_matches ("X".toList) ("W/X".toList) = true ∧
    etag_matches ("W/X".toList) ("X".toList) = true ∧
    etag_matches ("W/X".toList) ("W/X".toList) = true := by
  refine ⟨?_, by decide, by decide, by decide⟩
  intro etag inm
  by_cases h : inm = "*".toList
  · simp [etag_matches, h]
  · simp only [etag_matches, h, if_false, decide_eq_false h, Bool.false_or]
    exact etag_any_absorb etag (getlineSplit ',' inm)

/-- `find` locates the separator right after `a` when `a` avoids it. -/
theorem findCharIdx_append_first (ch : Char) (a b : List Char)
    (h : ∀ c ∈ a, c ≠ ch) :
    findCharIdx ch (a ++ ch :: b) = some a.length := by
  induction a with
  | nil => simp [findCharIdx]
  | cons c tl ih =>
    have hc : c ≠ ch := h c (List.mem_cons_self c tl)
    simp only [List.cons_append, findCharIdx, hc, if_false, List.append_eq]
    rw [ih fun x hx => h x (List.mem_cons_of_mem c hx)]
    rfl

theorem take_len_append {α : Type} (a b : List α) : (a ++ b).take a.length = a := by
  induction a with
  | nil => rfl
  | cons c tl ih => simp [List.take, ih]

theorem drop_len_append {α : Type} (a b : List α) (k : Nat) :
    (a ++ b).drop (a.length + k) = b.drop k := by
  induction a with
  | nil => simp
  | cons c tl ih => simpa [List.drop, Nat.succ_add] using ih

theorem dropWhile_eq_self_of {α : Type} (p : α → Bool) (l : List α)
    (h : ∀ c ∈ l, p c = false) : l.dropWhile p = l := by
  cases l with
  | nil => rfl
  | cons c tl => simp [List.dropWhile, h c (List.mem_cons_self c tl)]

theorem trimR_eq_self (n : List Char) (h : ∀ c ∈ n, isSpTab c = false) :
    trimR n = n := by
  unfold trimR
  rw [dropWhile_eq_self_of]
  · exact List.reverse_reverse n
  · intro c hc
    exact h c (List.mem_reverse.mp hc)

/-- A valid header name contains no SP/HTAB and no colon. -/
theorem valid_name_chars (n : List Char) (h : is_valid_header_name n = true) :
    ∀ c ∈ n, isSpTab c = false ∧ c ≠ ':' := by
  unfold is_valid_header_name at h
  rw [Bool.and_eq_true, List.all_eq_true] at h
  intro c hc
  have hall := h.2 c hc
  constructor
  · by_contra hsp
    rw [Bool.not_eq_false] at hsp
    have : c = ' ' ∨ c = '\t' := by
      simpa [isSpTab] using hsp
    rcases this with rfl | rfl <;> simp at hall
  · rintro rfl
    simp at hall

/-- `parse_header_line` on a line built as `name ++ ":" ++ value` with a
valid name and a valid trimmed value is exactly an insertion under the
lowercased name. -/
theorem parse_header_line_mk (m : Smap) (n v : List Char)
    (hn : is_valid_header_name n = true)
    (hv : is_valid_header_value (trimWs v) = true) :
    parse_header_line m (n ++ ':' :: v) = mapInsert (lowerStr n) (trimWs v) m := by
  have hchars := valid_name_chars n hn
  unfold parse_header_line
  rw [findCharIdx_append_first ':' n v fun c hc => (hchars c hc).2]
  simp only [take_len_append]
  have hdrop : (n ++ ':' :: v).drop (n.length + 1) = v := drop_len_append n (':' :: v) 1
  rw [hdrop, trimR_eq_self n fun c hc => (hchars c hc).1, hn, hv]
  simp

/-- Claim C3 (amended): processing two header lines whose valid names are
case-insensitively equal binds the lowercase name to the SECOND trimmed
value alone — the later occurrence overwrites the earlier; nothing is
combined with ", ". -/
theorem c3_duplicate_header_overwrites (m : Smap) (n1 n2 v1 v2 : List Char)
    (h1 : is_valid_header_name n1 = true)
    (h2 : is_valid_header_name n2 = true)
    (hv1 : is_valid_header_value (trimWs v1) = true)
    (hv2 : is_valid_header_value (trimWs v2) = true)
    (hlow : lowerStr n1 = lowerStr n2) :
    mapFind? (lowerStr n2)
      (parse_header_line (parse_header_line m (n1 ++ ':' :: v1))
        (n2 ++ ':' :: v2)) = some (trimWs v2) := by
  rw [parse_header_line_mk m n1 v1 h1 hv1,
    parse_header_line_mk _ n2 v2 h2 hv2, mapFind?_insert_self]

/-- Witness for C3's amended theorem at `X-A: 1` then `x-a: 2`. -/
theorem c3_duplicate_header_overwrites_witness :
    mapFind? (lowerStr ("x-a".toList))
      (parse_header_line (parse_header_line [] ("X-A".toList ++ ':' :: " 1".toList))
        ("x-a".toList ++ ':' :: " 2".toList)) = some (trimWs (" 2".toList)) :=
  c3_duplicate_header_overwrites [] ("X-A".toList) ("x-a".toList)
    (" 1".toList) (" 2".toList) (by decide) (by decide) (by decide) (by decide)
    (by decide)

/-- The value a query component binds: what follows its first `=`, or the
empty string when it has none. -/
def queryValOf (pair : List Char) : List Char :=
  match findCharIdx '=' pair with
  | some eq => pair.drop (eq + 1)
  | none => []

/-- One query step is an insertion under the component's key. -/
theorem query_pair_step_eq (m : Smap) (c : List Char) :
    query_pair_step m c = mapInsert (queryKeyOf c) (queryValOf c) m := by
  unfold query_pair_step queryKeyOf queryValOf
  cases h : findCharIdx '=' c <;> simp [h]

/-- Later components that bind other keys do not disturb a lookup. -/
theorem foldl_query_untouched (k : List Char) (post : List (List Char)) :
    ∀ m : Smap, (∀ c ∈ post, queryKeyOf c ≠ k) →
      mapFind? k (post.foldl query_pair_step m) = mapFind? k m := by
  induction post with
  | nil => intro m _; rfl
  | cons c tl ih =>
    intro m h
    rw [List.foldl_cons, ih _ fun x hx => h x (List.mem_cons_of_mem c hx),
      query_pair_step_eq, mapFind?_insert_ne _ _ _ _ (h c (List.mem_cons_self c tl))]

/-- Claim C10: every `&`-component without `=` is stored with the whole
component as key and the empty string as value, and every component with
`=` is split only at its FIRST `=`, later `=` characters staying in the
value; the final map binds a component's key to its value whenever no
later component shadows that key. -/
theorem c10_query_pairs :
    (∀ q pre c post, getlineSplit '&' q = pre ++ c :: post →
      (∀ c' ∈ post, queryKeyOf c' ≠ queryKeyOf c) →
      mapFind? (queryKeyOf c) (parse_query_string q) = some (queryValOf c)) ∧
    (∀ c : List Char, findCharIdx '=' c = none →
      queryKeyOf c = c ∧ queryValOf c = []) ∧
    (∀ k v : List Char, (∀ ch ∈ k, ch ≠ '=') →
      queryKeyOf (k ++ '=' :: v) = k ∧ queryValOf (k ++ '=' :: v) = v) := by
  refine ⟨?_, ?_, ?_⟩
  · intro q pre c post hsplit hpost
    unfold parse_query_string
    rw [hsplit, List.foldl_append, List.foldl_cons,
      foldl_query_untouched _ _ _ hpost, query_pair_step_eq, mapFind?_insert_self]
  · intro c h
    unfold queryKeyOf queryValOf
    rw [h]
    exact ⟨rfl, rfl⟩
  · intro k v h
    unfold queryKeyOf queryValOf
    rw [findCharIdx_append_first '=' k v h]
    exact ⟨take_len_append k ('=' :: v), drop_len_append k ('=' :: v) 1⟩

/-- Witness for C10 at the query `a=1=2&b`: the `a` key takes value
`1=2` (split at the first `=` only), and the `b` component maps to the
empty string. -/
theorem c10_query_pairs_witness :
    mapFind? (queryKeyOf ("a=1=2".toList)) (parse_query_string ("a=1=2&b".toList))
      = some (queryValOf ("a=1=2".toList)) ∧
    (queryKeyOf ("b".toList) = "b".toList ∧ queryValOf ("b".toList) = []) ∧
    (queryKeyOf ("a".toList ++ '=' :: "1=2".toList) = "a".toList ∧
      queryValOf ("a".toList ++ '=' :: "1=2".toList) = "1=2".toList) :=
  ⟨c10_query_pairs.1 ("a=1=2&b".toList) [] ("a=1=2".toList) ["b".toList]
      (by decide) (by decide),
   c10_query_pairs.2.1 ("b".toList) (by decide),
   c10_query_pairs.2.2 ("a".toList) ("1=2".toList) (by decide)⟩

/-- The token count after the refill phase, exactly as the claim words it:
when `elapsed ≥ refill_interval`, add `floor(elapsed / refill_interval) *
refill_rate` tokens capped at `capacity`; otherwise leave the count. -/
def tbRefilled (cfg : TBConfig) (st : BucketState) (now : Nat) : Nat :=
  if cfg.refill_interval ≤ now - st.last_refill then
    min cfg.capacity
      (st.tokens + (now - st.last_refill) / cfg.refill_interval * cfg.refill_rate)
  else st.tokens

/-- One check never lifts the stored token count above capacity. -/
theorem check_rate_limit_tokens_le (cfg : TBConfig) (st? : Option BucketState)
    (now : Nat) (h : ∀ s, st? = some s → s.tokens ≤ cfg.capacity) :
    (check_rate_limit cfg st? now).2.tokens ≤ cfg.capacity := by
  have hst : (st?.getD ⟨cfg.capacity, now⟩).tokens ≤ cfg.capacity := by
    cases st? with
    | none => simp [Option.getD]
    | some s => simpa [Option.getD] using h s rfl
  unfold check_rate_limit
  dsimp only
  split <;> split <;> simp_all <;> omega

/-- Claim C6: per-call characterization of `check_rate_limit` (refill,
then decrement-and-allow or deny with the modular reset time), plus the
capacity invariant along any sequence of calls on a fresh key. -/
theorem c6_token_bucket_step_and_invariant :
    (∀ (cfg : TBConfig) (st : BucketState) (now : Nat),
      0 < cfg.refill_interval → st.last_refill ≤ now →
      ((check_rate_limit cfg (some st) now).2.last_refill =
        if cfg.refill_interval ≤ now - st.last_refill then now
        else st.last_refill) ∧
      (st.tokens ≤ cfg.capacity →
        (check_rate_limit cfg (some st) now).2.tokens ≤ cfg.capacity) ∧
      (0 < tbRefilled cfg st now →
        (check_rate_limit cfg (some st) now).1.allowed = true ∧
        (check_rate_limit cfg (some st) now).1.remaining =
          tbRefilled cfg st now - 1 ∧
        (check_rate_limit cfg (some st) now).2.tokens =
          tbRefilled cfg st now - 1) ∧
      (tbRefilled cfg st now = 0 →
        (check_rate_limit cfg (some st) now).1.allowed = false ∧
        (check_rate_limit cfg (some st) now).1.remaining = 0 ∧
        (check_rate_limit cfg (some st) now).1.reset_time =
          cfg.refill_interval - (now - st.last_refill) % cfg.refill_interval ∧
        (check_rate_limit cfg (some st) now).2.tokens = 0)) ∧
    (∀ (cfg : TBConfig) (times : List Nat),
      ∀ s ∈ tbStates cfg none times, s.tokens ≤ cfg.capacity) := by
  constructor
  · intro cfg st now hI hle
    refine ⟨?_, ?_, ?_, ?_⟩
    · unfold check_rate_limit
      dsimp only [Option.getD]
      by_cases hr : cfg.refill_interval ≤ now - st.last_refill
      · simp only [if_pos hr]
        split <;> rfl
      · simp only [if_neg hr]
        split <;> rfl
    · intro hcap
      exact check_rate_limit_tokens_le cfg (some st) now fun s hs => by
        cases hs; exact hcap
    · intro hpos
      simp only [tbRefilled] at hpos
      unfold check_rate_limit
      dsimp only [Option.getD]
      by_cases hr : cfg.refill_interval ≤ now - st.last_refill
      · rw [if_pos hr] at hpos
        simp only [if_pos hr, if_pos hpos]
        simp [tbRefilled, hr]
      · rw [if_neg hr] at hpos
        simp only [if_neg hr, if_pos hpos]
        simp [tbRefilled, hr]
    · intro hzero
      simp only [tbRefilled] at hzero
      unfold check_rate_limit
      dsimp only [Option.getD]
      by_cases hr : cfg.refill_interval ≤ now - st.last_refill
      · rw [if_pos hr] at hzero
        have hneg : ¬ 0 < cfg.capacity ⊓
            (st.tokens + (now - st.last_refill) / cfg.refill_interval * cfg.refill_rate) := by
          omega
        simp only [if_pos hr, if_neg hneg]
        simp [tbRefilled, hr, hzero]
      · rw [if_neg hr] at hzero
        have hneg : ¬ 0 < st.tokens := by omega
        simp only [if_neg hr, if_neg hneg]
        simp [tbRefilled, hr, hzero]
  · intro cfg times
    suffices h : ∀ (ts : List Nat) (st? : Option BucketState),
        (∀ s, st? = some s → s.tokens ≤ cfg.capacity) →
        ∀ s ∈ tbStates cfg st? ts, s.tokens ≤ cfg.capacity by
      exact h times none fun s hs => by cases hs
    intro ts
    induction ts with
    | nil => intro st? _ s hs; simp [tbStates] at hs
    | cons now rest ih =>
      intro st? hpre s hs
      simp only [tbStates, List.mem_cons] at hs
      have hstep := check_rate_limit_tokens_le cfg st? now hpre
      rcases hs with rfl | hs
      · exact hstep
      · exact ih _ (fun s' hs' => by cases hs'; exact hstep) s hs

/-- Witness for C6 at capacity 3, rate 1, interval 1 s: the first call at
time 0 on a fresh bucket allows and leaves 2 tokens; every state along
four immediate calls stays within capacity. -/
theorem c6_token_bucket_step_and_invariant_witness :
    0 < (1 : Nat) ∧ (0 : Nat) ≤ 0 ∧
    (check_rate_limit ⟨3, 1, 1⟩ (some ⟨3, 0⟩) 0).1.allowed = true ∧
    (check_rate_limit ⟨3, 1, 1⟩ (some ⟨3, 0⟩) 0).2.tokens = 2 ∧
    (∀ s ∈ tbStates ⟨3, 1, 1⟩ none [0, 0, 0, 0], s.tokens ≤ 3) := by
  have h1 := (c6_token_bucket_step_and_invariant.1 ⟨3, 1, 1⟩ ⟨3, 0⟩ 0
    (by decide) (by decide)).2.2.1 (by decide)
  refine ⟨by decide, by decide, h1.1, ?_, ?_⟩
  · rw [h1.2.2]
    decide
  · exact c6_token_bucket_step_and_invariant.2 ⟨3, 1, 1⟩ [0, 0, 0, 0]

theorem resp_get_header_set_same (r : HttpResponse) (n v n' : List Char)
    (h : respNormalize n' = respNormalize n) :
    resp_get_header (resp_set_header r n v) n' = v := by
  unfold resp_get_header resp_set_header
  rw [h, mapFind?_insert_self]
  rfl

theorem resp_get_header_set_ne (r : HttpResponse) (n v n' : List Char)
    (h : respNormalize n' ≠ respNormalize n) :
    resp_get_header (resp_set_header r n v) n' = resp_get_header r n' := by
  unfold resp_get_header resp_set_header
  rw [mapFind?_insert_ne _ _ _ _ (Ne.symm h)]

theorem resp_set_header_status (r : HttpResponse) (n v : List Char) :
    (resp_set_header r n v).status = r.status := rfl

theorem resp_set_body_status (r : HttpResponse) (b : List Char) :
    (resp_set_body r b).status = r.status := rfl

theorem resp_set_body_body (r : HttpResponse) (b : List Char) :
    (resp_set_body r b).body = b := rfl

theorem resp_get_header_mk_body (st : Nat) (hs : Smap) (bd : List Char)
    (b n : List Char) :
    resp_get_header { HttpResponse.mk st hs bd with body := b } n =
      resp_get_header (HttpResponse.mk st hs bd) n := rfl

theorem resp_get_header_body_update (r : HttpResponse) (b n : List Char) :
    resp_get_header { r with body := b } n = resp_get_header r n := rfl

theorem resp_get_header_set_status (r : HttpResponse) (st : Nat) (n : List Char) :
    resp_get_header (resp_set_status r st) n = resp_get_header r n := rfl

/-- The JSON error body the middleware builds on deny. -/
def rlJsonBody (reason : List Char) : List Char :=
  ("\x7b\"error\": \"Rate limit exceeded\", \"reason\": \"".toList) ++
    reason ++ ("\"\x7d".toList)

/-- Claim C7: on a denied check the middleware sets the four
`X-RateLimit-*` headers, makes the final response the configured custom
response when there is one and otherwise a 429 carrying those headers and
a JSON error body, and stops the pipeline; on an allowed check it sets
`X-RateLimit-Limit` and `X-RateLimit-Remaining` and continues. -/
theorem c7_rate_limit_middleware (maxReq : Nat) (custom : Option HttpResponse)
    (result : RateLimitResult) (resp : HttpResponse) :
    (result.allowed = false →
      (create_middleware maxReq custom result resp).1 = false ∧
      (∀ cr, custom = some cr →
        (create_middleware maxReq custom result resp).2 = cr) ∧
      (custom = none →
        (create_middleware maxReq custom result resp).2.status = 429 ∧
        resp_get_header (create_middleware maxReq custom result resp).2
          ("X-RateLimit-Limit".toList) = natToStr maxReq ∧
        resp_get_header (create_middleware maxReq custom result resp).2
          ("X-RateLimit-Remaining".toList) = natToStr result.remaining ∧
        resp_get_header (create_middleware maxReq custom result resp).2
          ("X-RateLimit-Reset".toList) = natToStr result.reset_time ∧
        resp_get_header (create_middleware maxReq custom result resp).2
          ("X-RateLimit-Type".toList) = result.limit_type ∧
        (create_middleware maxReq custom result resp).2.body =
          rlJsonBody result.reason)) ∧
    (result.allowed = true →
      (create_middleware maxReq custom result resp).1 = true ∧
      resp_get_header (create_middleware maxReq custom result resp).2
        ("X-RateLimit-Limit".toList) = natToStr maxReq ∧
      resp_get_header (create_middleware maxReq custom result resp).2
        ("X-RateLimit-Remaining".toList) = natToStr result.remaining) := by
  constructor
  · intro hdeny
    unfold create_middleware
    rw [hdeny]
    simp only [Bool.not_false, if_true]
    refine ⟨?_, ?_, ?_⟩
    · cases custom <;> rfl
    · intro cr hcr
      subst hcr
      rfl
    · intro hcr
      subst hcr
      dsimp only
      refine ⟨rfl, ?_, ?_, ?_, ?_, ?_⟩
      · unfold resp_set_json resp_set_body
        rw [resp_get_header_set_ne _ _ _ _ (by decide),
          resp_get_header_body_update,
          resp_get_header_set_ne _ _ _ _ (by decide),
          resp_get_header_set_status,
          resp_get_header_set_ne _ _ _ _ (by decide),
          resp_get_header_set_ne _ _ _ _ (by decide),
          resp_get_header_set_ne _ _ _ _ (by decide),
          resp_get_header_set_same _ _ _ _ (by decide)]
      · unfold resp_set_json resp_set_body
        rw [resp_get_header_set_ne _ _ _ _ (by decide),
          resp_get_header_body_update,
          resp_get_header_set_ne _ _ _ _ (by decide),
          resp_get_header_set_status,
          resp_get_header_set_ne _ _ _ _ (by decide),
          resp_get_header_set_ne _ _ _ _ (by decide),
          resp_get_header_set_same _ _ _ _ (by decide)]
      · unfold resp_set_json resp_set_body
        rw [resp_get_header_set_ne _ _ _ _ (by decide),
          resp_get_header_body_update,
          resp_get_header_set_ne _ _ _ _ (by decide),
          resp_get_header_set_status,
          resp_get_header_set_ne _ _ _ _ (by decide),
          resp_get_header_set_same _ _ _ _ (by decide)]
      · unfold resp_set_json resp_set_body
        rw [resp_get_header_set_ne _ _ _ _ (by decide),
          resp_get_header_body_update,
          resp_get_header_set_ne _ _ _ _ (by decide),
          resp_get_header_set_status,
          resp_get_header_set_same _ _ _ _ (by decide)]
      · rfl
  · intro hallow
    unfold create_middleware
    rw [hallow]
    simp only [Bool.not_true]
    rw [if_neg (by decide : ¬((false : Bool) = true))]
    refine ⟨rfl, ?_, ?_⟩
    · rw [resp_get_header_set_ne _ _ _ _ (by decide),
        resp_get_header_set_same _ _ _ _ (by decide)]
    · rw [resp_get_header_set_same _ _ _ _ (by decide)]

/-- Witness for C7 on a denied result without a custom response and on an
allowed result. -/
theorem c7_rate_limit_middleware_witness :
    ((⟨false, 0, 7, "token_bucket".toList, "Token bucket exhausted".toList⟩ :
        RateLimitResult).allowed = false ∧
      (create_middleware 5 none
        ⟨false, 0, 7, "token_bucket".toList, "Token bucket exhausted".toList⟩
        ⟨200, [], []⟩).1 = false) ∧
    ((⟨true, 4, 0, "token_bucket".toList, []⟩ :
        RateLimitResult).allowed = true ∧
      (create_middleware 5 none ⟨true, 4, 0, "token_bucket".toList, []⟩
        ⟨200, [], []⟩).1 = true) := by
  constructor
  · exact ⟨rfl,
      ((c7_rate_limit_middleware 5 none _ ⟨200, [], []⟩).1 rfl).1⟩
  · exact ⟨rfl,
      ((c7_rate_limit_middleware 5 none _ ⟨200, [], []⟩).2 rfl).1⟩

/-- `content_length` depends only on the headers map. -/
theorem content_length_headers (r1 r2 : HttpRequest) (h : r1.headers = r2.headers) :
    content_length r1 = content_length r2 := by
  unfold content_length get_header
  rw [h]

/-- `teChunked` depends only on the headers map. -/
theorem teChunked_headers (r1 r2 : HttpRequest) (h : r1.headers = r2.headers) :
    teChunked r1 = teChunked r2 := by
  unfold teChunked get_header
  rw [h]

/-- `parse_request_line` never touches the body field. -/
theorem parse_request_line_body (r : HttpRequest) (line : List Char) :
    (parse_request_line r line).body = r.body := by
  unfold parse_request_line
  split
  · split <;> rfl
  · rfl

/-- A GET request whose `Content-Length` value is the unparseable `abc`,
followed by stray bytes. -/
def clAbcReq : List Char :=
  "GET / HTTP/1.1\r\nContent-Length: abc\r\n\r\nxyz".toList

/-- What a successful `frameBody` says about its result. -/
theorem frameBody_some (base r : HttpRequest) (bv : List Char)
    (h : frameBody base bv = some r) :
    r.headers = base.headers ∧
    (teChunked base = false → content_length base = 0 → r = base) := by
  unfold frameBody at h
  split at h
  · rename_i hch
    split at h
    · simp at h
    · injection h with hr
      constructor
      · rw [← hr]
      · intro hf _
        rw [hch] at hf
        simp at hf
  · rename_i hch
    split at h
    · rename_i hcp
      split at h
      · simp at h
      · split at h
        · simp at h
        · injection h with hr
          refine ⟨by rw [← hr], ?_⟩
          intro _ hcl0
          rw [hcl0] at hcp
          omega
    · injection h with hr
      exact ⟨by rw [← hr], fun _ _ => hr.symm⟩

/-- A successful parse factors through a successful `frameBody` on the
base request assembled from the request line and the header lines. -/
theorem parse_some_frame (raw : List Char) (req : HttpRequest)
    (h : HttpRequest.parse raw = some req) :
    ∃ reqLine rest bv, frameBody (parseBase reqLine rest) bv = some req := by
  unfold HttpRequest.parse at h
  split at h
  · simp at h
  · split at h
    · simp at h
    · split at h
      · simp at h
      · split at h
        · simp at h
        · rename_i r heq
          split at h
          · injection h with h2
            exact ⟨_, _, _, by rw [← h2]; exact heq⟩
          · simp at h

/-- Claim C9: a `Content-Length` value on which `stoull` throws is
treated as zero — `content_length()` returns 0, and a parse that reaches
the `Content-Length` framing with such a header succeeds with an empty
body (the trailing bytes are not consumed); the concrete request with
`Content-Length: abc` indeed parses with an empty body. -/
theorem c9_malformed_content_length_zero :
    (∀ (req : HttpRequest) (v : List Char),
      get_header req ("content-length".toList) = some v →
      cppStoull v = none → content_length req = 0) ∧
    (∀ (raw : List Char) (req : HttpRequest) (v : List Char),
      HttpRequest.parse raw = some req →
      get_header req ("content-length".toList) = some v →
      cppStoull v = none →
      teChunked req = false →
      req.body = []) ∧
    (HttpRequest.parse clAbcReq).map HttpRequest.body = some [] := by
  have part1 : ∀ (req : HttpRequest) (v : List Char),
      get_header req ("content-length".toList) = some v →
      cppStoull v = none → content_length req = 0 := by
    intro req v h1 h2
    unfold content_length
    rw [h1]
    dsimp only
    rw [h2]
    rfl
  refine ⟨part1, ?_, by decide⟩
  intro raw req v hp hv hcl hte
  obtain ⟨reqLine, rest, bv, hframe⟩ := parse_some_frame raw req hp
  obtain ⟨hheaders, hbase⟩ := frameBody_some _ _ _ hframe
  have hch : teChunked (parseBase reqLine rest) = false := by
    rw [← teChunked_headers req _ hheaders]
    exact hte
  have hcl0 : content_length (parseBase reqLine rest) = 0 := by
    rw [← content_length_headers req _ hheaders]
    exact part1 req v hv hcl
  have hreq := hbase hch hcl0
  rw [hreq]
  show (parse_request_line HttpRequest.empty reqLine).body = []
  rw [parse_request_line_body]
  rfl

/-- The parse result of `clAbcReq`. -/
def clAbcParsed : HttpRequest :=
  ⟨.GET, "/".toList, "HTTP/1.1".toList,
   [("content-length".toList, "abc".toList)], [], []⟩

/-- Witness for C9 at the concrete request `Content-Length: abc`. -/
theorem c9_malformed_content_length_zero_witness :
    content_length clAbcParsed = 0 ∧ clAbcParsed.body = [] :=
  ⟨c9_malformed_content_length_zero.1 clAbcParsed ("abc".toList)
      (by decide) (by decide),
   c9_malformed_content_length_zero.2.1 clAbcReq clAbcParsed ("abc".toList)
      (by decide) (by decide) (by decide) (by decide)⟩

/-! ## Chunked-encoding round trip (claim C5) -/

/-- Lowercase hex digit character for a value below 16. -/
def hexDigitCh (m : Nat) : Char :=
  if m < 10 then Char.ofNat (48 + m) else Char.ofNat (87 + m)

/-- Hex digits of `n`, most significant first (empty for 0), fuelled. -/
def hexStrAux : Nat → Nat → List Char
  | 0, _ => []
  | fuel + 1, n =>
    if n = 0 then [] else hexStrAux fuel (n / 16) ++ [hexDigitCh (n % 16)]

/-- A hexadecimal rendering of `n` (what a client writes on a chunk-size
line). -/
def hexStr (n : Nat) : List Char :=
  if n = 0 then ['0'] else hexStrAux (n + 1) n

theorem hexDigitCh_val (m : Nat) (h : m < 16) :
    hexCharVal (hexDigitCh m) = m := by
  interval_cases m <;> decide

theorem hexDigitCh_isHex (m : Nat) (h : m < 16) :
    isHexDigitCh (hexDigitCh m) = true := by
  interval_cases m <;> decide

theorem hexStrAux_zero (fuel : Nat) : hexStrAux fuel 0 = [] := by
  cases fuel <;> simp [hexStrAux]

theorem hexStrAux_mem (fuel : Nat) :
    ∀ n, ∀ c ∈ hexStrAux fuel n, isHexDigitCh c = true := by
  induction fuel with
  | zero => intro n c hc; simp [hexStrAux] at hc
  | succ f ih =>
    intro n c hc
    by_cases hn : n = 0
    · simp [hexStrAux, hn] at hc
    · simp only [hexStrAux, hn, if_false, List.mem_append, List.mem_singleton] at hc
      rcases hc with hc | rfl
      · exact ih (n / 16) c hc
      · exact hexDigitCh_isHex (n % 16) (Nat.mod_lt n (by omega))

theorem hexStrAux_val (fuel : Nat) :
    ∀ n, n ≤ fuel → 0 < n → ∀ a : Nat,
      (hexStrAux fuel n).foldl (fun x c => x * 16 + hexCharVal c) a =
        a * 16 ^ (hexStrAux fuel n).length + n := by
  induction fuel with
  | zero => intro n hle hpos; omega
  | succ f ih =>
    intro n hle hpos a
    have hn : n ≠ 0 := by omega
    simp only [hexStrAux, hn, if_false]
    rw [List.foldl_append]
    by_cases hsmall : n < 16
    · have h16 : n / 16 = 0 := Nat.div_eq_of_lt hsmall
      rw [h16, hexStrAux_zero, Nat.mod_eq_of_lt hsmall]
      simp [hexDigitCh_val n hsmall]
    · have hq : 0 < n / 16 := Nat.div_pos (by omega) (by omega)
      have hqle : n / 16 ≤ f := by
        have := Nat.div_lt_self hpos (by omega : 1 < 16)
        omega
      rw [ih (n / 16) hqle hq a]
      simp only [List.foldl_cons, List.foldl_nil, List.length_append,
        List.length_cons, List.length_nil]
      rw [hexDigitCh_val (n % 16) (Nat.mod_lt n (by omega))]
      have hpow : a * 16 ^ ((hexStrAux f (n / 16)).length + 1) =
          a * 16 ^ (hexStrAux f (n / 16)).length * 16 := by
        rw [Nat.pow_succ]
        ring
      rw [hpow]
      have hdm := Nat.div_add_mod n 16
      set M := a * 16 ^ (hexStrAux f (n / 16)).length
      omega

/-- The hex rendering evaluates back to its value. -/
theorem hexStr_val (n : Nat) : hexDigitsToNat (hexStr n) = n := by
  unfold hexStr hexDigitsToNat
  by_cases hn : n = 0
  · subst hn
    decide
  · simp only [hn, if_false]
    rw [hexStrAux_val (n + 1) n (by omega) (by omega) 0]
    simp

/-- Every character of the hex rendering is a hex digit. -/
theorem hexStr_mem (n : Nat) : ∀ c ∈ hexStr n, isHexDigitCh c = true := by
  unfold hexStr
  by_cases hn : n = 0
  · simp [hn]
    decide
  · simp only [hn, if_false]
    exact hexStrAux_mem (n + 1) n

theorem hexStr_ne_nil (n : Nat) : hexStr n ≠ [] := by
  unfold hexStr
  by_cases hn : n = 0
  · simp [hn]
  · simp only [hn, if_false]
    show hexStrAux (n + 1) n ≠ []
    simp [hexStrAux, hn]

/-- A hex digit is none of the characters the `stoul` front matter cares
about. -/
theorem hex_not_special (c : Char) (h : isHexDigitCh c = true) :
    isCppWs c = false ∧ c ≠ '\r' ∧ c ≠ ';' ∧ c ≠ '-' ∧ c ≠ '+' ∧
      c ≠ 'x' ∧ c ≠ 'X' := by
  have hne : ∀ d : Char, isHexDigitCh d = false → c ≠ d := by
    intro d hd hcd
    rw [hcd, hd] at h
    cases h
  refine ⟨?_, hne '\r' (by decide), hne ';' (by decide), hne '-' (by decide),
    hne '+' (by decide), hne 'x' (by decide), hne 'X' (by decide)⟩
  by_contra hws
  rw [Bool.not_eq_false] at hws
  have h6 : ((((c = ' ' ∨ c = '\t') ∨ c = '\n') ∨ c = '\x0b') ∨ c = '\x0c') ∨
      c = '\r' := by
    simpa [isCppWs] using hws
  rcases h6 with ((((rfl | rfl) | rfl) | rfl) | rfl) | rfl <;>
    exact absurd h (by decide)

theorem takeWhile_eq_self_of {α : Type} (p : α → Bool) (l : List α)
    (h : ∀ c ∈ l, p c = true) : l.takeWhile p = l := by
  induction l with
  | nil => rfl
  | cons c tl ih =>
    simp only [List.takeWhile_cons, h c (List.mem_cons_self c tl), if_true]
    rw [ih fun x hx => h x (List.mem_cons_of_mem c hx)]

theorem findCharIdx_eq_none (ch : Char) (l : List Char)
    (h : ∀ c ∈ l, c ≠ ch) : findCharIdx ch l = none := by
  induction l with
  | nil => rfl
  | cons c tl ih =>
    simp only [findCharIdx, h c (List.mem_cons_self c tl), if_false]
    rw [ih fun x hx => h x (List.mem_cons_of_mem c hx)]
    rfl

/-- `stoul` base 16 reads a hex rendering back. -/
theorem cppStoulHex_hexStr (n : Nat) (h : n < 2 ^ 64) :
    cppStoulHex (hexStr n) = some n := by
  have hmem := hexStr_mem n
  have hspec := fun c hc => hex_not_special c (hmem c hc)
  unfold cppStoulHex
  rw [dropWhile_eq_self_of isCppWs (hexStr n) fun c hc => (hspec c hc).1]
  obtain ⟨s0, tl, hS⟩ : ∃ s0 tl, hexStr n = s0 :: tl := by
    cases hE : hexStr n with
    | nil => exact absurd hE (hexStr_ne_nil n)
    | cons a b => exact ⟨a, b, rfl⟩
  have hs0 := hspec s0 (by rw [hS]; exact List.mem_cons_self s0 tl)
  have hsign : ((hexStr n).take 1 = ['-'] || (hexStr n).take 1 = ['+']) = false := by
    rw [hS]
    simp [hs0.2.2.2.1, hs0.2.2.2.2.1]
  have hneg : ((hexStr n).take 1 = ['-'] : Bool) = false := by
    rw [hS]
    simp [hs0.2.2.2.1]
  have hneg2 : ¬ ((hexStr n).take 1 = ['-']) := by
    rw [hS]
    simp [hs0.2.2.2.1]
  have hpre : ((hexStr n).take 2 = ['0', 'x'] || (hexStr n).take 2 = ['0', 'X']) = false := by
    rw [hS]
    cases tl with
    | nil => simp
    | cons s1 tl2 =>
      have hs1 := hspec s1 (by rw [hS]; exact List.mem_cons_of_mem s0 (List.mem_cons_self s1 tl2))
      simp [hs1.2.2.2.2.2.1, hs1.2.2.2.2.2.2]
  simp only [hsign, hpre, Bool.false_eq_true, if_false,
    takeWhile_eq_self_of isHexDigitCh (hexStr n) hmem, hexStr_val n]
  rw [if_neg (hexStr_ne_nil n), if_neg (by omega : ¬ 2 ^ 64 ≤ n), if_neg hneg2]

/-- The first CRLF after a CR-free stretch sits exactly at its end. -/
theorem findSub_crlf_append (S R : List Char) (h : ∀ c ∈ S, c ≠ '\r') :
    findSub crlf (S ++ '\r' :: '\n' :: R) = some S.length := by
  induction S with
  | nil => rfl
  | cons c tl ih =>
    have hc : c ≠ '\r' := h c (List.mem_cons_self c tl)
    have hlead : leadsWith crlf (c :: (tl ++ '\r' :: '\n' :: R)) = false := by
      simp [crlf, leadsWith, Ne.symm hc]
    simp only [List.cons_append, List.append_eq, findSub, hlead,
      Bool.false_eq_true, if_false]
    rw [ih fun x hx => h x (List.mem_cons_of_mem c hx)]
    rfl

/-- Wire encoding of one nonempty chunk: hex size line, CRLF, data,
CRLF. -/
def encodeChunk (c : List Char) : List Char :=
  hexStr c.length ++ '\r' :: '\n' :: (c ++ '\r' :: '\n' :: ([] : List Char))

/-- Wire encoding of a chunk sequence (without the zero terminator). -/
def encodeChunks : List (List Char) → List Char
  | [] => []
  | c :: cs => encodeChunk c ++ encodeChunks cs

/-- One iteration of the chunk loop over a well-formed chunk. -/
theorem parse_chunked_loop_step (f : Nat) (c R acc : List Char) (total : Nat)
    (hcne : c ≠ [])
    (hcap2 : total + c.length ≤ MAX_BODY_SIZE) :
    parse_chunked_loop (f + 1)
        (hexStr c.length ++ '\r' :: '\n' :: (c ++ '\r' :: '\n' :: R)) acc total
      = parse_chunked_loop f R (acc ++ c) (total + c.length) := by
  have hclen : 0 < c.length := List.length_pos.mpr hcne
  have hmax : MAX_BODY_SIZE < 2 ^ 64 := by decide
  have hnoCR : ∀ x ∈ hexStr c.length, x ≠ '\r' :=
    fun x hx => (hex_not_special x (hexStr_mem c.length x hx)).2.1
  have hnoSemi : ∀ x ∈ hexStr c.length, x ≠ ';' :=
    fun x hx => (hex_not_special x (hexStr_mem c.length x hx)).2.2.1
  have hbne : hexStr c.length ++ '\r' :: '\n' :: (c ++ '\r' :: '\n' :: R) ≠ [] := by
    simp
  conv_lhs => unfold parse_chunked_loop
  rw [if_neg hbne, findSub_crlf_append _ _ hnoCR]
  dsimp only
  rw [take_len_append]
  unfold stripChunkExt
  rw [findCharIdx_eq_none ';' _ hnoSemi]
  dsimp only
  rw [cppStoulHex_hexStr c.length (by omega)]
  dsimp only
  rw [if_neg (by omega : ¬ c.length = 0),
    if_neg (by omega : ¬ MAX_BODY_SIZE < total + c.length)]
  rw [drop_len_append _ _ 2]
  dsimp only [List.drop]
  rw [if_neg (by simp : ¬ (c ++ '\r' :: '\n' :: R).length < c.length)]
  have hdropc : (c ++ '\r' :: '\n' :: R).drop c.length = '\r' :: '\n' :: R := by
    simpa using drop_len_append c ('\r' :: '\n' :: R) 0
  rw [hdropc, take_len_append]
  dsimp only [List.take, List.drop]
  rw [if_pos (show (['\x0d', '\n'] : List Char) = crlf from rfl)]

/-- The chunk loop consumes a well-formed chunk sequence up to the first
zero-size chunk line and ignores everything after it. -/
theorem parse_chunked_encode (chunks : List (List Char)) :
    ∀ (rest acc : List Char) (total fuel : Nat),
      (∀ c ∈ chunks, c ≠ []) →
      total + (chunks.map List.length).sum ≤ MAX_BODY_SIZE →
      (encodeChunks chunks ++ '0' :: '\r' :: '\n' :: rest).length < fuel →
      parse_chunked_loop fuel (encodeChunks chunks ++ '0' :: '\r' :: '\n' :: rest)
        acc total = some (acc ++ chunks.join) := by
  induction chunks with
  | nil =>
    intro rest acc total fuel hne hcap hfuel
    simp only [encodeChunks, List.nil_append] at hfuel ⊢
    cases fuel with
    | zero => omega
    | succ f =>
      unfold parse_chunked_loop
      rw [if_neg (by simp : ('0' :: '\r' :: '\n' :: rest : List Char) ≠ [])]
      have h1 : findSub crlf ('0' :: '\r' :: '\n' :: rest) = some 1 := by
        simpa using findSub_crlf_append ['0'] rest (by decide)
      rw [h1]
      dsimp only [List.take]
      rw [show cppStoulHex (stripChunkExt ['0']) = some 0 from by decide]
      simp
  | cons c cs ih =>
    intro rest acc total fuel hne hcap hfuel
    have hcne : c ≠ [] := hne c (List.mem_cons_self c cs)
    have hbuf : encodeChunks (c :: cs) ++ '0' :: '\r' :: '\n' :: rest =
        hexStr c.length ++ '\r' :: '\n' ::
          (c ++ '\r' :: '\n' :: (encodeChunks cs ++ '0' :: '\r' :: '\n' :: rest)) := by
      simp [encodeChunks, encodeChunk, List.append_assoc]
    rw [hbuf] at hfuel ⊢
    cases fuel with
    | zero => omega
    | succ f =>
      rw [parse_chunked_loop_step f c _ acc total hcne (by simp at hcap; omega)]
      have hlen1 : 0 < (hexStr c.length).length :=
        List.length_pos.mpr (hexStr_ne_nil c.length)
      have hfuel2 : (encodeChunks cs ++ '0' :: '\r' :: '\n' :: rest).length < f := by
        simp only [List.length_append, List.length_cons] at hfuel ⊢
        omega
      rw [ih rest (acc ++ c) (total + c.length) f
        (fun x hx => hne x (List.mem_cons_of_mem c hx))
        (by simp at hcap ⊢; omega) hfuel2]
      simp

/-- Claim C5 (amended): the chunked-body parser consumes chunks only up
to the first zero-size chunk line — its result is the concatenation of
the chunks and does not depend on the bytes after the terminator — and on
a keep-alive connection `handle_write` CLEARS the buffer, so any bytes
after the terminator are discarded rather than kept as the next
request. -/
theorem c5_chunked_termination_amended :
    (∀ (chunks : List (List Char)) (rest : List Char),
      (∀ c ∈ chunks, c ≠ []) →
      (chunks.map List.length).sum ≤ MAX_BODY_SIZE →
      parse_chunked_body (encodeChunks chunks ++ '0' :: '\r' :: '\n' :: rest)
        = some chunks.join) ∧
    (∀ (data : List Char) (req : HttpRequest),
      HttpRequest.parse data = some req → is_keep_alive req = true →
      handleWriteNext data = some []) := by
  constructor
  · intro chunks rest hne hcap
    unfold parse_chunked_body
    rw [parse_chunked_encode chunks rest [] 0 _ hne (by omega) (by omega)]
    simp
  · intro data req hp hka
    unfold handleWriteNext
    rw [hp]
    dsimp only
    rw [hka]
    rfl

/-- The parse result of `chunkedPlusRest`. -/
def chunkedParsed : HttpRequest :=
  ⟨.POST, "/u".toList, "HTTP/1.1".toList,
   [("transfer-encoding".toList, "chunked".toList)], [], "Hello".toList⟩

/-- Witness for C5's amended theorem: one `Hello` chunk followed by
trailing bytes parses to `Hello` alone, and the keep-alive buffer reset
on the concrete chunked request yields the empty buffer. -/
theorem c5_chunked_termination_amended_witness :
    parse_chunked_body (encodeChunks ["Hello".toList] ++
        '0' :: '\r' :: '\n' :: "\r\nXYZ".toList) = some ("Hello".toList) ∧
    handleWriteNext chunkedPlusRest = some [] := by
  constructor
  · have h := c5_chunked_termination_amended.1 ["Hello".toList] ("\r\nXYZ".toList)
      (by decide) (by decide)
    simpa using h
  · exact c5_chunked_termination_amended.2 chunkedPlusRest chunkedParsed
      (by decide) (by decide)

/-! ## Lemmas for the WebSocket frame round trip (claim C8) -/

theorem wsMaskFrom_length (key : Nat) (p : List Nat) :
    ∀ i, (wsMaskFrom key i p).length = p.length := by
  induction p with
  | nil => intro i; rfl
  | cons b bs ih => intro i; simp [wsMaskFrom, ih]

theorem wsMaskFrom_invol (key : Nat) (p : List Nat) :
    ∀ i, wsMaskFrom key i (wsMaskFrom key i p) = p := by
  induction p with
  | nil => intro i; rfl
  | cons b bs ih =>
    intro i
    simp only [wsMaskFrom, ih (i + 1), List.cons.injEq, and_true]
    exact Nat.xor_cancel_right _ b

theorem wsMask_invol (key : Nat) (p : List Nat) : wsMask key (wsMask key p) = p :=
  wsMaskFrom_invol key p 0

theorem wsMask_length (key : Nat) (p : List Nat) :
    (wsMask key p).length = p.length := wsMaskFrom_length key p 0

/-- Decoding the first serialized byte recovers the flags and opcode. -/
theorem wsByte0_decode (op : Nat) (hop : op < 16) (f r1 r2 r3 : Bool) :
    decide (wsByte0 op f r1 r2 r3 &&& 128 ≠ 0) = f ∧
    decide (wsByte0 op f r1 r2 r3 &&& 64 ≠ 0) = r1 ∧
    decide (wsByte0 op f r1 r2 r3 &&& 32 ≠ 0) = r2 ∧
    decide (wsByte0 op f r1 r2 r3 &&& 16 ≠ 0) = r3 ∧
    wsByte0 op f r1 r2 r3 &&& 15 = op := by
  cases f <;> cases r1 <;> cases r2 <;> cases r3 <;>
    (unfold wsByte0; interval_cases op <;> exact (by decide))

/-- Decoding the second serialized byte in the 7-bit length regime. -/
theorem wsMaskBitOr_decode_small (L : Nat) (hL : L < 126) (m : Bool) :
    decide (wsMaskBitOr m L &&& 128 ≠ 0) = m ∧ wsMaskBitOr m L &&& 127 = L := by
  cases m <;> (unfold wsMaskBitOr; interval_cases L <;> exact (by decide))

/-- Decoding the second serialized byte on the 126/127 markers. -/
theorem wsMaskBitOr_decode_marker (v : Nat) (h : v = 126 ∨ v = 127) (m : Bool) :
    decide (wsMaskBitOr m v &&& 128 ≠ 0) = m ∧ wsMaskBitOr m v &&& 127 = v := by
  rcases h with rfl | rfl <;> cases m <;> exact (by decide)

theorem ws_recombine2 (L : Nat) (h : L < 65536) :
    (0 * 256 + L / 2 ^ 8 % 256) * 256 + L % 256 = L := by omega

theorem ws_recombine8 (L : Nat) (h : L < 2 ^ 64) :
    (((((((0 * 256 + L / 2 ^ 56 % 256) * 256 + L / 2 ^ 48 % 256) * 256 +
      L / 2 ^ 40 % 256) * 256 + L / 2 ^ 32 % 256) * 256 + L / 2 ^ 24 % 256) * 256 +
      L / 2 ^ 16 % 256) * 256 + L / 2 ^ 8 % 256) * 256 + L % 256 = L := by omega

theorem ws_recombine_key (K : Nat) (h : K < 2 ^ 32) :
    (((0 * 256 + K / 2 ^ 24 % 256) * 256 + K / 2 ^ 16 % 256) * 256 +
      K / 2 ^ 8 % 256) * 256 + K % 256 = K := by omega

/-- Claim C8: for every frame whose `payload_length` equals its payload
size (with a 4-bit opcode, a 32-bit masking key and a 64-bit length),
parsing the serialized bytes consumes exactly the whole serialization and
returns a frame with the same fin, rsv1-3, opcode, masked flag, payload
length, masking key when masked (0, the default, when not), and payload
bytes — the XOR masking applied on serialize is undone on parse. -/
theorem c8_ws_frame_roundtrip (fr : WebSocketFrame)
    (hlen : fr.payload_length = fr.payload.length) (hop : fr.opcode < 16)
    (hkey : fr.masking_key < 2 ^ 32) (hL : fr.payload_length < 2 ^ 64) :
    wsParse (wsSerialize fr) =
      some ({ fr with masking_key := if fr.masked then fr.masking_key else 0 },
        (wsSerialize fr).length) := by
  obtain ⟨f, r1, r2, r3, op, m, L, K, p⟩ := fr
  dsimp only at hlen hop hkey hL ⊢
  subst hlen
  obtain ⟨hb0f, hb0r1, hb0r2, hb0r3, hb0op⟩ := wsByte0_decode op hop f r1 r2 r3
  by_cases h126 : p.length < 126
  · obtain ⟨hm, hlow⟩ := wsMaskBitOr_decode_small p.length h126 m
    cases m with
    | false =>
      have hmP : ¬ (wsMaskBitOr false p.length &&& 128 ≠ 0) :=
        of_decide_eq_false hm
      simp only [wsSerialize, if_pos h126]
      simp only [List.cons_append, List.nil_append, List.singleton_append]
      simp only [Bool.false_eq_true, if_false, List.nil_append]
      unfold wsParse
      dsimp only
      rw [hlow]
      have hne126 : (p.length = 126) = False := eq_false (by omega)
      have hne127 : (p.length = 127) = False := eq_false (by omega)
      simp only [hne126, hne127, if_false, Nat.not_lt_zero, List.drop_zero]
      rw [if_neg hmP]
      simp only [lt_self_iff_false, if_false, List.take_length]
      rw [hb0f, hb0r1, hb0r2, hb0r3, hb0op]
      simp only [List.length_cons]
      exact congrArg some (Prod.ext rfl (by omega))
    | true =>
      have hmP : wsMaskBitOr true p.length &&& 128 ≠ 0 := of_decide_eq_true hm
      simp only [wsSerialize, if_pos h126]
      simp only [List.cons_append, List.nil_append, List.singleton_append]
      simp only [eq_self_iff_true, if_true]
      unfold wsParse
      dsimp only
      rw [hlow]
      have hne126 : (p.length = 126) = False := eq_false (by omega)
      have hne127 : (p.length = 127) = False := eq_false (by omega)
      simp only [hne126, hne127, if_false, Nat.not_lt_zero, List.drop_zero]
      rw [if_pos hmP]
      have hk4 : (([K / 2 ^ 24 % 256, K / 2 ^ 16 % 256, K / 2 ^ 8 % 256, K % 256] :
          List Nat) ++ wsMask K p).take 4 =
          [K / 2 ^ 24 % 256, K / 2 ^ 16 % 256, K / 2 ^ 8 % 256, K % 256] := by
        simp
      have hd4 : (([K / 2 ^ 24 % 256, K / 2 ^ 16 % 256, K / 2 ^ 8 % 256, K % 256] :
          List Nat) ++ wsMask K p).drop 4 = wsMask K p := by
        simp
      have hlen4 : (([K / 2 ^ 24 % 256, K / 2 ^ 16 % 256, K / 2 ^ 8 % 256, K % 256] :
          List Nat) ++ wsMask K p).length = 4 + (wsMask K p).length := by
        simp only [List.length_append, List.length_cons, List.length_nil]
        try omega
      rw [hlen4, if_neg (by omega : ¬ 4 + (wsMask K p).length < 4), hk4, hd4]
      dsimp only [List.foldl]
      rw [ws_recombine_key K hkey, wsMask_length K p]
      simp only [lt_self_iff_false, if_false]
      have htake : (wsMask K p).take p.length = wsMask K p := by
        rw [← wsMask_length K p]
        exact List.take_length _
      rw [htake, wsMask_invol]
      rw [hb0f, hb0r1, hb0r2, hb0r3, hb0op]
      simp only [List.length_cons, List.length_append, List.length_nil,
        wsMask_length]
      exact congrArg some (Prod.ext rfl (by omega))
  · by_cases h65536 : p.length < 65536
    · obtain ⟨hm, hmark⟩ := wsMaskBitOr_decode_marker 126 (Or.inl rfl) m
      cases m with
      | false =>
        have hmP : ¬ (wsMaskBitOr false 126 &&& 128 ≠ 0) := of_decide_eq_false hm
        simp only [wsSerialize, if_neg h126, if_pos h65536]
        simp only [List.cons_append, List.nil_append, List.singleton_append]
        simp only [Bool.false_eq_true, if_false, List.nil_append]
        unfold wsParse
        dsimp only
        rw [hmark]
        simp only [show ((126 : Nat) = 126) = True from by simp,
          show ((126 : Nat) = 127) = False from by simp, if_true, if_false]
        rw [if_neg (by simp :
          ¬ (p.length / 2 ^ 8 % 256 :: p.length % 256 :: p).length < 2)]
        simp only [List.take_succ_cons, List.take_zero, List.drop_succ_cons,
          List.drop_zero]
        dsimp only [List.foldl]
        rw [ws_recombine2 p.length h65536]
        rw [if_neg hmP]
        simp only [lt_self_iff_false, if_false, List.take_length]
        rw [hb0f, hb0r1, hb0r2, hb0r3, hb0op]
        simp only [List.length_cons]
        exact congrArg some (Prod.ext rfl (by omega))
      | true =>
        have hmP : wsMaskBitOr true 126 &&& 128 ≠ 0 := of_decide_eq_true hm
        simp only [wsSerialize, if_neg h126, if_pos h65536]
        simp only [List.cons_append, List.nil_append, List.singleton_append]
        simp only [eq_self_iff_true, if_true]
        unfold wsParse
        dsimp only
        rw [hmark]
        simp only [show ((126 : Nat) = 126) = True from by simp,
          show ((126 : Nat) = 127) = False from by simp, if_true, if_false]
        rw [if_neg (by simp : ¬ (p.length / 2 ^ 8 % 256 :: p.length % 256 ::
          ([K / 2 ^ 24 % 256, K / 2 ^ 16 % 256, K / 2 ^ 8 % 256, K % 256] ++
            wsMask K p)).length < 2)]
        simp only [List.take_succ_cons, List.take_zero, List.drop_succ_cons,
          List.drop_zero]
        dsimp only [List.foldl]
        rw [ws_recombine2 p.length h65536]
        rw [if_pos hmP]
        have hd4 : (([K / 2 ^ 24 % 256, K / 2 ^ 16 % 256, K / 2 ^ 8 % 256, K % 256] :
            List Nat) ++ wsMask K p).drop 4 = wsMask K p := by
          simp
        have hlen4 : (([K / 2 ^ 24 % 256, K / 2 ^ 16 % 256, K / 2 ^ 8 % 256, K % 256] :
            List Nat) ++ wsMask K p).length = 4 + (wsMask K p).length := by
          simp only [List.length_append, List.length_cons, List.length_nil]
          try omega
        rw [hlen4, if_neg (by omega : ¬ 4 + (wsMask K p).length < 4), hd4]
        rw [ws_recombine_key K hkey, wsMask_length K p]
        simp only [lt_self_iff_false, if_false]
        have htake : (wsMask K p).take p.length = wsMask K p := by
          rw [← wsMask_length K p]
          exact List.take_length _
        rw [htake, wsMask_invol]
        rw [hb0f, hb0r1, hb0r2, hb0r3, hb0op]
        simp only [List.length_cons, List.length_append, List.length_nil,
          wsMask_length]
        exact congrArg some (Prod.ext rfl (by omega))
    · obtain ⟨hm, hmark⟩ := wsMaskBitOr_decode_marker 127 (Or.inr rfl) m
      have h8 : ∀ X : List Nat,
          (p.length / 2 ^ 56 % 256 :: p.length / 2 ^ 48 % 256 ::
            p.length / 2 ^ 40 % 256 :: p.length / 2 ^ 32 % 256 ::
            p.length / 2 ^ 24 % 256 :: p.length / 2 ^ 16 % 256 ::
            p.length / 2 ^ 8 % 256 :: p.length % 256 :: X).length = 8 + X.length := by
        intro X
        simp only [List.length_cons]
        omega
      cases m with
      | false =>
        have hmP : ¬ (wsMaskBitOr false 127 &&& 128 ≠ 0) := of_decide_eq_false hm
        simp only [wsSerialize, if_neg h126, if_neg h65536]
        simp only [List.cons_append, List.nil_append, List.singleton_append]
        simp only [Bool.false_eq_true, if_false, List.nil_append]
        unfold wsParse
        dsimp only
        rw [hmark]
        simp only [show ((127 : Nat) = 126) = False from by simp,
          show ((127 : Nat) = 127) = True from by simp, if_true, if_false]
        rw [if_neg (by rw [h8 p]; omega)]
        simp only [List.take_succ_cons, List.take_zero, List.drop_succ_cons,
          List.drop_zero]
        dsimp only [List.foldl]
        rw [ws_recombine8 p.length hL]
        rw [if_neg hmP]
        simp only [lt_self_iff_false, if_false, List.take_length]
        rw [hb0f, hb0r1, hb0r2, hb0r3, hb0op]
        simp only [List.length_cons]
        exact congrArg some (Prod.ext rfl (by omega))
      | true =>
        have hmP : wsMaskBitOr true 127 &&& 128 ≠ 0 := of_decide_eq_true hm
        simp only [wsSerialize, if_neg h126, if_neg h65536]
        simp only [List.cons_append, List.nil_append, List.singleton_append]
        simp only [eq_self_iff_true, if_true]
        unfold wsParse
        dsimp only
        rw [hmark]
        simp only [show ((127 : Nat) = 126) = False from by simp,
          show ((127 : Nat) = 127) = True from by simp, if_true, if_false]
        rw [if_neg (by
          rw [h8 ([K / 2 ^ 24 % 256, K / 2 ^ 16 % 256, K / 2 ^ 8 % 256, K % 256] ++
            wsMask K p)]
          omega)]
        simp only [List.take_succ_cons, List.take_zero, List.drop_succ_cons,
          List.drop_zero]
        dsimp only [List.foldl]
        rw [ws_recombine8 p.length hL]
        rw [if_pos hmP]
        have hd4 : (([K / 2 ^ 24 % 256, K / 2 ^ 16 % 256, K / 2 ^ 8 % 256, K % 256] :
            List Nat) ++ wsMask K p).drop 4 = wsMask K p := by
          simp
        have hlen4 : (([K / 2 ^ 24 % 256, K / 2 ^ 16 % 256, K / 2 ^ 8 % 256, K % 256] :
            List Nat) ++ wsMask K p).length = 4 + (wsMask K p).length := by
          simp only [List.length_append, List.length_cons, List.length_nil]
          try omega
        rw [hlen4, if_neg (by omega : ¬ 4 + (wsMask K p).length < 4), hd4]
        rw [ws_recombine_key K hkey, wsMask_length K p]
        simp only [lt_self_iff_false, if_false]
        have htake : (wsMask K p).take p.length = wsMask K p := by
          rw [← wsMask_length K p]
          exact List.take_length _
        rw [htake, wsMask_invol]
        rw [hb0f, hb0r1, hb0r2, hb0r3, hb0op]
        simp only [List.length_cons, List.length_append, List.length_nil,
          wsMask_length]
        exact congrArg some (Prod.ext rfl (by omega))

/-- A concrete masked TEXT frame carrying "Hi". -/
def wsFrameEx : WebSocketFrame :=
  ⟨true, false, false, false, 1, true, 2, 0x12345678, [72, 105]⟩

/-- Witness for C8 at the concrete masked frame. -/
theorem c8_ws_frame_roundtrip_witness :
    wsFrameEx.payload_length = wsFrameEx.payload.length ∧
    wsFrameEx.opcode < 16 ∧ wsFrameEx.masking_key < 2 ^ 32 ∧
    wsFrameEx.payload_length < 2 ^ 64 ∧
    wsParse (wsSerialize wsFrameEx) =
      some ({ wsFrameEx with
              masking_key := if wsFrameEx.masked then wsFrameEx.masking_key else 0 },
        (wsSerialize wsFrameEx).length) :=
  ⟨by decide, by decide, by decide, by decide,
   c8_ws_frame_roundtrip wsFrameEx (by decide) (by decide) (by decide) (by decide)⟩
